import Mathlib

/-!
Shallow embedding of the case-duration histogram binning implemented in
src/gui/overview_screen.py (functions get_potential_extra_bins,
choose_extra_bins and compute_binned_distribution_case_durations).

The Python code obtains its numeric inputs from an external query engine:
four quantile values of the case-duration sample (lines 371-380) and, at the
end, the number of cases falling into each closed integer interval
(get_num_cases_with_durations, lines 211-280).  Both round trips are modelled
as inputs here: a QuantileResponse record holds the four quantile values and
a count oracle of type Ivl -> Nat stands for the interval-counting query.
For concrete evaluations the oracle sample_count derived from an explicit
integer sample is used, which is exactly the count the query computes
(number of sample values x with low <= x <= high).

Arithmetic conventions, matching Python on integer data:
  - Python floor division a // b is Int.fdiv.
  - int(np.ceil(a / b)) for integers is ceil_div a b = -(Int.fdiv (-a) b).
  - the true-division comparison (a / b) < n used on line 383 is rendered
    exactly by sign-correct cross multiplication (ratio_lt), valid for b /= 0;
    the b = 0 case is a division by zero in the source and is modelled as an
    explicit error.
Places where the Python raises an unhandled arithmetic exception (division by
zero) are modelled as Except.error BinError.divisionByZero.  The constructor
BinError.invalidConfiguration exists so that the error-handling contract of
the specification can be stated; the code never produces it.
-/

/-- Closed integer interval, a Python pair (low, high). -/
abbrev Ivl := Int × Int

/-- Error outcomes.  divisionByZero models the unhandled ZeroDivisionError or
the equivalent numpy overflow crash in the source; invalidConfiguration is the
error kind the specification prescribes for num_bins < 3 and is never produced
by the code. -/
inductive BinError where
  | invalidConfiguration
  | divisionByZero
deriving DecidableEq, Repr

/-- Integer rendering of int(np.ceil(a / b)): ceiling division. -/
def ceil_div (a b : Int) : Int := -(Int.fdiv (-a) b)

/-- Exact rendering of the Python true-division comparison a / b < n for
integers with b /= 0: multiply through by b, flipping for negative b. -/
def ratio_lt (a b n : Int) : Bool :=
  if 0 < b then decide (a < n * b) else decide (n * b < a)

/-- Quantile values fetched from the external engine in
compute_binned_distribution_case_durations, lines 371-380: values at the
percentiles 0, 1, 1/(2 num_bins) and 1 - 1/(2 num_bins). -/
structure QuantileResponse where
  min_val : Int
  max_val : Int
  lower_end : Int
  upper_end : Int
deriving DecidableEq, Repr

/-- Embedding of get_potential_extra_bins (overview_screen.py lines 283-313).
The loop for i in range(1, num_bins + 1) appends candidate lower bins below
lower_end and candidate upper bins above upper_end, keeping only those strictly
inside (min_val, max_val). -/
def get_potential_extra_bins (lower_end upper_end bin_width num_bins min_val
    max_val : Int) : List Ivl × List Ivl :=
  let idxs : List Int :=
    (List.range num_bins.toNat).map (fun (j : Nat) => (j : Int) + 1)
  (idxs.filterMap (fun i =>
      if min_val < lower_end - i * bin_width then
        some (lower_end - i * bin_width, lower_end - (i - 1) * bin_width - 1)
      else none),
   idxs.filterMap (fun i =>
      if upper_end + i * bin_width < max_val then
        some (upper_end + 1 + (i - 1) * bin_width, upper_end + i * bin_width)
      else none))

/-- Loop body of choose_extra_bins (overview_screen.py lines 336-350), with the
loop counter i of for i in range(num_bins) as explicit fuel.  Python condition
precedence: (L > 0 and U == 0) or (L > 0) and (not take_from_upper) is
L > 0 and (U == 0 or not take_from_upper).  Taking potential_lowers[-1] and
prepending it to the accumulator is rendered by appending the recursive result
in front of the taken last element; taking potential_uppers[0] and appending it
is rendered by consing it onto the recursive result. -/
def choose_extra_bins_go : List Ivl → List Ivl → Nat → Bool → List Ivl × List Ivl
  | _, _, 0, _ => ([], [])
  | lowers, uppers, n + 1, take_from_upper =>
    if lowers.length = 0 ∧ uppers.length = 0 then ([], [])
    else if 0 < lowers.length ∧ (uppers.length = 0 ∨ take_from_upper = false) then
      match lowers.getLast? with
      | some b =>
        let r := choose_extra_bins_go lowers.dropLast uppers n true
        (r.1 ++ [b], r.2)
      | none => ([], [])
    else
      match uppers with
      | b :: rest =>
        let r := choose_extra_bins_go lowers rest n false
        (r.1, b :: r.2)
      | [] => ([], [])

/-- Embedding of choose_extra_bins (overview_screen.py lines 316-351): early
return when both candidate pools are empty, else the alternating loop starting
with take_from_upper = True; range(num_bins) for negative num_bins is empty,
hence Int.toNat. -/
def choose_extra_bins (potential_lowers potential_uppers : List Ivl)
    (num_bins : Int) : List Ivl × List Ivl :=
  if (potential_lowers ++ potential_uppers).length = 0 then ([], [])
  else choose_extra_bins_go potential_lowers potential_uppers num_bins.toNat true

/-- Line 382: bin_width = int(np.ceil((upper_end - lower_end) / (num_bins - 2))).
Meaningful only when num_bins - 2 /= 0; the zero case is an error in
compute_bins. -/
def bin_width_raw (num_bins : Int) (qr : QuantileResponse) : Int :=
  ceil_div (qr.upper_end - qr.lower_end) (num_bins - 2)

/-- Lines 383-384: the narrow-range correction.  If
(max_val - min_val + 1) / bin_width < num_bins (true division) and
bin_width > 1, decrement bin_width by one. -/
def bin_width (num_bins : Int) (qr : QuantileResponse) : Int :=
  if ratio_lt (qr.max_val - qr.min_val + 1) (bin_width_raw num_bins qr) num_bins
      = true ∧ 1 < bin_width_raw num_bins qr
  then bin_width_raw num_bins qr - 1
  else bin_width_raw num_bins qr

/-- Line 385: bins_within = (upper_end - lower_end + 1) // bin_width, Python
floor division. -/
def bins_within (num_bins : Int) (qr : QuantileResponse) : Int :=
  Int.fdiv (qr.upper_end - qr.lower_end + 1) (bin_width num_bins qr)

/-- Lines 386-389: the equal-width core bins laid out from lower_end. -/
def core_bins (num_bins : Int) (qr : QuantileResponse) : List Ivl :=
  (List.range (bins_within num_bins qr).toNat).map
    (fun (i : Nat) => (qr.lower_end + (i : Int) * bin_width num_bins qr,
               qr.lower_end + ((i : Int) + 1) * bin_width num_bins qr - 1))

/-- Line 390: diff_bins = num_bins - 2 - bins_within. -/
def diff_bins (num_bins : Int) (qr : QuantileResponse) : Int :=
  num_bins - 2 - bins_within num_bins qr

/-- Line 391: upper_end_within = lower_end + bin_width * bins_within - 1. -/
def upper_end_within (num_bins : Int) (qr : QuantileResponse) : Int :=
  qr.lower_end + bin_width num_bins qr * bins_within num_bins qr - 1

/-- Lines 392-394: the two candidate pools of potential extra bins. -/
def potential_pools (num_bins : Int) (qr : QuantileResponse) :
    List Ivl × List Ivl :=
  get_potential_extra_bins qr.lower_end (upper_end_within num_bins qr)
    (bin_width num_bins qr) (diff_bins num_bins qr) qr.min_val qr.max_val

/-- Lines 396-398: the chosen extra bins on each side. -/
def extra_bins (num_bins : Int) (qr : QuantileResponse) :
    List Ivl × List Ivl :=
  choose_extra_bins (potential_pools num_bins qr).1
    (potential_pools num_bins qr).2 (diff_bins num_bins qr)

/-- Lines 399-402: min_inner_bin is the low bound of the first chosen lower
extra bin, else lower_end. -/
def min_inner_bin (num_bins : Int) (qr : QuantileResponse) : Int :=
  match (extra_bins num_bins qr).1 with
  | b :: _ => b.1
  | [] => qr.lower_end

/-- Lines 403-406: max_inner_bin is the high bound of the last chosen upper
extra bin, else upper_end_within. -/
def max_inner_bin (num_bins : Int) (qr : QuantileResponse) : Int :=
  match (extra_bins num_bins qr).2.getLast? with
  | some b => b.2
  | none => upper_end_within num_bins qr

/-- Lines 408-410: the assembled bin list
[min_bin] + extra_bins_lower + bins + extra_bins_upper + [max_bin]. -/
def assembled_bins (num_bins : Int) (qr : QuantileResponse) : List Ivl :=
  [((qr.min_val, min_inner_bin num_bins qr - 1) : Ivl)]
    ++ (extra_bins num_bins qr).1 ++ core_bins num_bins qr
    ++ (extra_bins num_bins qr).2
    ++ [((max_inner_bin num_bins qr + 1, qr.max_val) : Ivl)]

/-- Bin-list part of compute_binned_distribution_case_durations (lines
367-410).  The three error exits are the unguarded divisions of the source:
lower_percentile = 1 / (2 * num_bins) on line 369 (zero when num_bins = 0),
the division by num_bins - 2 on line 382, and the divisions by bin_width on
lines 383 and 385 when the raw bin width is zero (after a possible decrement
the width stays nonzero because the decrement requires it to exceed 1). -/
def compute_bins (num_bins : Int) (qr : QuantileResponse) :
    Except BinError (List Ivl) :=
  if 2 * num_bins = 0 then .error .divisionByZero
  else if num_bins - 2 = 0 then .error .divisionByZero
  else if bin_width_raw num_bins qr = 0 then .error .divisionByZero
  else .ok (assembled_bins num_bins qr)

/-- Embedding of get_num_cases_with_durations (overview_screen.py lines
211-280) for finite intervals: one count per interval, in interval order.
The count itself is the external query response, here the oracle cnt. -/
def get_num_cases_with_durations (cnt : Ivl → Nat)
    (duration_intervals : List Ivl) : List (Ivl × Nat) :=
  duration_intervals.map (fun d => (d, cnt d))

/-- Accurate count oracle for an explicit sample: the number of sample values
inside the closed interval, which is what the generated query computes
(duration >= low AND duration <= high). -/
def sample_count (sample : List Int) (d : Ivl) : Nat :=
  (sample.filter (fun x => decide (d.1 ≤ x) && decide (x ≤ d.2))).length

/-- Embedding of compute_binned_distribution_case_durations (overview_screen.py
lines 354-417): compute the bin list, then attach the per-interval counts.
The time_unit argument only parametrises the external query strings and does
not enter the arithmetic. -/
def compute_binned_distribution_case_durations (cnt : Ivl → Nat)
    (num_bins : Int) (time_unit : String) (qr : QuantileResponse) :
    Except BinError (List (Ivl × Nat)) :=
  (compute_bins num_bins qr).map (get_num_cases_with_durations cnt)

/-- Boolean check that adjacent bins satisfy high + 1 = low of the successor. -/
def contiguousB : List Ivl → Bool
  | a :: b :: rest => (a.2 + 1 == b.1) && contiguousB (b :: rest)
  | _ => true

/-! Helper lemmas about the selection loop. -/

/-- Appending to a nonempty right list keeps its last element. -/
theorem getLast?_append_right {α : Type _} (l₁ l₂ : List α) (h : l₂ ≠ []) :
    (l₁ ++ l₂).getLast? = l₂.getLast? := by
  induction l₁ with
  | nil => simp
  | cons a l ih =>
    rw [List.cons_append]
    cases hl : l ++ l₂ with
    | nil => exact absurd (List.append_eq_nil.mp hl).2 h
    | cons b t =>
      rw [hl] at ih
      rw [List.getLast?_cons_cons]
      exact ih

/-- Unfolding equation of the selection loop for zero fuel. -/
theorem choose_go_zero (L U : List Ivl) (t : Bool) :
    choose_extra_bins_go L U 0 t = ([], []) := rfl

/-- Unfolding equation of the selection loop for one more iteration. -/
theorem choose_go_succ (L U : List Ivl) (n : Nat) (t : Bool) :
    choose_extra_bins_go L U (n + 1) t
      = (if L.length = 0 ∧ U.length = 0 then ([], [])
         else if 0 < L.length ∧ (U.length = 0 ∨ t = false) then
           match L.getLast? with
           | some b =>
             let r := choose_extra_bins_go L.dropLast U n true
             (r.1 ++ [b], r.2)
           | none => ([], [])
         else
           match U with
           | b :: rest =>
             let r := choose_extra_bins_go L rest n false
             (r.1, b :: r.2)
           | [] => ([], [])) := rfl

/-- Each loop iteration picks exactly one bin while any candidate remains, so
the total number of picks is the fuel capped by the pool sizes. -/
theorem choose_go_length_sum (n : Nat) :
    ∀ (L U : List Ivl) (t : Bool),
      (choose_extra_bins_go L U n t).1.length
        + (choose_extra_bins_go L U n t).2.length
        = min n (L.length + U.length) := by
  induction n with
  | zero => intro L U t; simp [choose_go_zero]
  | succ n ih =>
    intro L U t
    rw [choose_go_succ]
    by_cases h1 : L.length = 0 ∧ U.length = 0
    · rw [if_pos h1]
      simp [h1.1, h1.2]
    · rw [if_neg h1]
      by_cases h2 : 0 < L.length ∧ (U.length = 0 ∨ t = false)
      · rw [if_pos h2]
        have hL : L ≠ [] := by
          intro he
          rw [he] at h2
          simp at h2
        cases hgl : L.getLast? with
        | none => exact absurd (List.getLast?_eq_none_iff.mp hgl) hL
        | some b =>
          have hsum := ih L.dropLast U true
          simp only [List.length_append, List.length_cons, List.length_nil,
            List.length_dropLast] at hsum ⊢
          omega
      · rw [if_neg h2]
        cases U with
        | nil =>
          exfalso
          apply h2
          refine ⟨?_, Or.inl rfl⟩
          simp at h1 ⊢
          exact List.length_pos.mpr h1
        | cons b rest =>
          have hsum := ih L rest false
          simp only [List.length_cons] at hsum ⊢
          omega

/-- Upper picks are taken from the front of the upper pool in order, so the
upper result is an initial segment of the upper pool. -/
theorem choose_go_upper_take (n : Nat) :
    ∀ (L U : List Ivl) (t : Bool),
      (choose_extra_bins_go L U n t).2
        = U.take (choose_extra_bins_go L U n t).2.length := by
  induction n with
  | zero => intro L U t; simp [choose_go_zero]
  | succ n ih =>
    intro L U t
    rw [choose_go_succ]
    by_cases h1 : L.length = 0 ∧ U.length = 0
    · rw [if_pos h1]; simp
    · rw [if_neg h1]
      by_cases h2 : 0 < L.length ∧ (U.length = 0 ∨ t = false)
      · rw [if_pos h2]
        cases hgl : L.getLast? with
        | none => simp
        | some b => exact ih L.dropLast U true
      · rw [if_neg h2]
        cases U with
        | nil => simp
        | cons b rest =>
          have h := ih L rest false
          simp only [List.length_cons, List.take_succ_cons]
          rw [← h]

/-- Lower picks are taken from the lower pool, so every chosen lower bin is a
member of the lower pool. -/
theorem choose_go_lower_mem (n : Nat) :
    ∀ (L U : List Ivl) (t : Bool) (b : Ivl),
      b ∈ (choose_extra_bins_go L U n t).1 → b ∈ L := by
  induction n with
  | zero => intro L U t b hb; rw [choose_go_zero] at hb; simp at hb
  | succ n ih =>
    intro L U t b hb
    rw [choose_go_succ] at hb
    by_cases h1 : L.length = 0 ∧ U.length = 0
    · rw [if_pos h1] at hb; simp at hb
    · rw [if_neg h1] at hb
      by_cases h2 : 0 < L.length ∧ (U.length = 0 ∨ t = false)
      · rw [if_pos h2] at hb
        cases hgl : L.getLast? with
        | none => rw [hgl] at hb; simp at hb
        | some x =>
          rw [hgl] at hb
          simp only [List.mem_append, List.mem_singleton] at hb
          rcases hb with hb | hb
          · exact (List.dropLast_sublist L).subset (ih L.dropLast U true b hb)
          · subst hb
            exact List.mem_of_mem_getLast? hgl
      · rw [if_neg h2] at hb
        cases U with
        | nil => simp at hb
        | cons u rest => exact ih L rest false b hb

/-- When each pool holds enough candidates, the loop alternates strictly and
the numbers of picks on each side are fixed by the fuel and the starting flag:
with flag true the upper side gets the picks of the even iterations. -/
theorem choose_go_exact (n : Nat) :
    ∀ (L U : List Ivl) (t : Bool),
      (if t = true then (n + 1) / 2 else n / 2) ≤ U.length →
      (if t = true then n / 2 else (n + 1) / 2) ≤ L.length →
      (choose_extra_bins_go L U n t).2.length
          = (if t = true then (n + 1) / 2 else n / 2)
        ∧ (choose_extra_bins_go L U n t).1.length
          = (if t = true then n / 2 else (n + 1) / 2) := by
  induction n with
  | zero => intro L U t hU hL; cases t <;> simp [choose_go_zero]
  | succ n ih =>
    intro L U t hU hL
    cases t with
    | true =>
      rw [if_pos rfl] at hU hL ⊢
      rw [if_pos rfl]
      rw [choose_go_succ]
      have hUpos : 0 < U.length := by omega
      rw [if_neg (by omega : ¬(L.length = 0 ∧ U.length = 0))]
      rw [if_neg (by
        rintro ⟨-, h | h⟩
        · omega
        · exact Bool.false_ne_true h.symm)]
      cases U with
      | nil => simp at hUpos
      | cons u rest =>
        simp only [List.length_cons] at hU
        have hrec := ih L rest false
          (by rw [if_neg Bool.false_ne_true]; omega)
          (by rw [if_neg Bool.false_ne_true]; omega)
        rw [if_neg Bool.false_ne_true, if_neg Bool.false_ne_true] at hrec
        dsimp only
        simp only [List.length_cons]
        refine ⟨?_, hrec.2⟩
        rw [hrec.1]
        omega
    | false =>
      rw [if_neg Bool.false_ne_true] at hU hL ⊢
      rw [if_neg Bool.false_ne_true]
      rw [choose_go_succ]
      have hLpos : 0 < L.length := by omega
      rw [if_neg (by omega : ¬(L.length = 0 ∧ U.length = 0))]
      rw [if_pos (⟨hLpos, Or.inr rfl⟩ :
        0 < L.length ∧ (U.length = 0 ∨ false = false))]
      have hLne : L ≠ [] := by
        intro he; rw [he] at hLpos; simp at hLpos
      cases hgl : L.getLast? with
      | none => exact absurd (List.getLast?_eq_none_iff.mp hgl) hLne
      | some x =>
        have hrec := ih L.dropLast U true
          (by rw [if_pos rfl]; omega)
          (by rw [if_pos rfl, List.length_dropLast]; omega)
        rw [if_pos rfl, if_pos rfl] at hrec
        dsimp only
        simp only [List.length_append, List.length_cons, List.length_nil]
        refine ⟨hrec.1, ?_⟩
        rw [hrec.2]
        omega

/-! Concrete inputs used by the claim theorems and witnesses. -/

/-- Quantile responses for the sample 1..100 with num_bins = 10: percentile
1/20 gives 5, percentile 19/20 gives 95, minimum 1, maximum 100. -/
def qr100 : QuantileResponse := ⟨1, 100, 5, 95⟩

/-- The sample of the integers 1..100. -/
def sample100 : List Int := (List.range 100).map (fun i => (i : Int) + 1)

/-- Quantile responses realised by a uniform sample on 5..13 with
num_bins = 10: both outer percentiles hit the extremes. -/
def qr9 : QuantileResponse := ⟨5, 13, 5, 13⟩

/-- The sample of the integers 5..13. -/
def sample9 : List Int := (List.range 9).map (fun i => (i : Int) + 5)

/-- Quantile responses for a concentrated sample with far outliers: minimum 0,
maximum 1000, percentile 1/16 at 100 and percentile 15/16 at 103 for
num_bins = 8. -/
def qr_gap : QuantileResponse := ⟨0, 1000, 100, 103⟩

/-- A 32-value sample realising qr_gap, with one value 99 sitting in the gap
that the assembled bins leave uncovered. -/
def sample32 : List Int :=
  [0, 99] ++ List.replicate 9 100 ++ List.replicate 5 101
    ++ List.replicate 5 102 ++ List.replicate 10 103 ++ [1000]

/-- The rows produced for the 1..100 scenario. -/
def rows100 : List (Ivl × Nat) :=
  get_num_cases_with_durations (sample_count sample100) (assembled_bins 10 qr100)

/-! Claim theorems. -/

/-- C10: for every pair of candidate lists and every num_bins, choose_extra_bins
returns min(max(num_bins, 0), len lowers + len uppers) bins in total, every
returned lower bin is an element of the lower pool, and the returned upper bins
are an initial segment of the upper pool in input order.  Int.toNat renders
max(num_bins, 0). -/
theorem C10_choose_extra_bins_spec (L U : List Ivl) (n : Int) :
    (choose_extra_bins L U n).1.length + (choose_extra_bins L U n).2.length
        = min n.toNat (L.length + U.length)
      ∧ (∀ b ∈ (choose_extra_bins L U n).1, b ∈ L)
      ∧ (choose_extra_bins L U n).2
          = U.take (choose_extra_bins L U n).2.length := by
  unfold choose_extra_bins
  by_cases h : (L ++ U).length = 0
  · rw [if_pos h]
    simp only [List.length_append] at h
    simp
    omega
  · rw [if_neg h]
    exact ⟨choose_go_length_sum n.toNat L U true,
      fun b hb => choose_go_lower_mem n.toNat L U true b hb,
      choose_go_upper_take n.toNat L U true⟩

/-- C10 witness at a concrete input: three lower and three upper candidates
with num_bins = 4. -/
theorem C10_witness :
    (choose_extra_bins [((1 : Int), (1 : Int)), (2, 2), (3, 3)]
          [(4, 4), (5, 5), (6, 6)] 4).1.length
        + (choose_extra_bins [((1 : Int), (1 : Int)), (2, 2), (3, 3)]
          [(4, 4), (5, 5), (6, 6)] 4).2.length
        = min (4 : Int).toNat
            (([((1 : Int), (1 : Int)), (2, 2), (3, 3)] : List Ivl).length
              + ([(4, 4), (5, 5), (6, 6)] : List Ivl).length)
      ∧ (∀ b ∈ (choose_extra_bins [((1 : Int), (1 : Int)), (2, 2), (3, 3)]
          [(4, 4), (5, 5), (6, 6)] 4).1,
          b ∈ ([((1 : Int), (1 : Int)), (2, 2), (3, 3)] : List Ivl))
      ∧ (choose_extra_bins [((1 : Int), (1 : Int)), (2, 2), (3, 3)]
          [(4, 4), (5, 5), (6, 6)] 4).2
          = ([(4, 4), (5, 5), (6, 6)] : List Ivl).take
              (choose_extra_bins [((1 : Int), (1 : Int)), (2, 2), (3, 3)]
                [(4, 4), (5, 5), (6, 6)] 4).2.length :=
  C10_choose_extra_bins_spec [((1 : Int), (1 : Int)), (2, 2), (3, 3)]
    [(4, 4), (5, 5), (6, 6)] 4

/-- C7: choose_extra_bins alternates starting with the upper pool; whenever
each pool holds at least ceil(num_bins / 2) candidates and num_bins is
nonnegative, the upper side receives ceil(num_bins / 2) picks and the lower
side floor(num_bins / 2), so the two counts differ by at most one. -/
theorem C7_alternation (L U : List Ivl) (n : Int) (h0 : 0 ≤ n)
    (hL : (n.toNat + 1) / 2 ≤ L.length) (hU : (n.toNat + 1) / 2 ≤ U.length) :
    (choose_extra_bins L U n).2.length = (n.toNat + 1) / 2
      ∧ (choose_extra_bins L U n).1.length = n.toNat / 2
      ∧ (choose_extra_bins L U n).1.length ≤ (choose_extra_bins L U n).2.length
      ∧ (choose_extra_bins L U n).2.length
          ≤ (choose_extra_bins L U n).1.length + 1 := by
  unfold choose_extra_bins
  by_cases h : (L ++ U).length = 0
  · rw [if_pos h]
    simp only [List.length_append] at h
    have hz : n.toNat = 0 := by omega
    simp [hz]
  · rw [if_neg h]
    have hgo := choose_go_exact n.toNat L U true
      (by rw [if_pos rfl]; omega) (by rw [if_pos rfl]; omega)
    rw [if_pos rfl, if_pos rfl] at hgo
    refine ⟨hgo.1, hgo.2, ?_, ?_⟩
    · rw [hgo.1, hgo.2]; omega
    · rw [hgo.1, hgo.2]; omega

/-- C7 witness at a concrete input: pools of three candidates each with
num_bins = 5; the upper side gets 3 picks, the lower side 2. -/
theorem C7_witness :
    (choose_extra_bins [((1 : Int), (1 : Int)), (2, 2), (3, 3)]
          [(4, 4), (5, 5), (6, 6)] 5).2.length = ((5 : Int).toNat + 1) / 2
      ∧ (choose_extra_bins [((1 : Int), (1 : Int)), (2, 2), (3, 3)]
          [(4, 4), (5, 5), (6, 6)] 5).1.length = (5 : Int).toNat / 2
      ∧ (choose_extra_bins [((1 : Int), (1 : Int)), (2, 2), (3, 3)]
          [(4, 4), (5, 5), (6, 6)] 5).1.length
          ≤ (choose_extra_bins [((1 : Int), (1 : Int)), (2, 2), (3, 3)]
            [(4, 4), (5, 5), (6, 6)] 5).2.length
      ∧ (choose_extra_bins [((1 : Int), (1 : Int)), (2, 2), (3, 3)]
          [(4, 4), (5, 5), (6, 6)] 5).2.length
          ≤ (choose_extra_bins [((1 : Int), (1 : Int)), (2, 2), (3, 3)]
            [(4, 4), (5, 5), (6, 6)] 5).1.length + 1 :=
  C7_alternation [((1 : Int), (1 : Int)), (2, 2), (3, 3)]
    [(4, 4), (5, 5), (6, 6)] 5 (by decide) (by decide) (by decide)

/-- C1 counterexample: with the realisable quantile responses of a uniform
sample on 5..13 and num_bins = 10, the core already yields nine width-one
bins, diff_bins is -1, and the assembled list has 11 entries, not 10. -/
theorem C1_counterexample :
    ((compute_binned_distribution_case_durations (sample_count sample9) 10
        "DAYS" qr9).toOption.map List.length) = some 11
      ∧ ((compute_binned_distribution_case_durations (sample_count sample9) 10
        "DAYS" qr9).toOption.map List.length) ≠ some 10 := by
  constructor
  · decide
  · decide

/-- C1 (amended): whenever the computation succeeds, the assembled bin list has
2 + bins_within + min(max(diff_bins, 0), number of candidate extra bins)
entries; this equals num_bins exactly when diff_bins is nonnegative and the
pools hold at least diff_bins candidates in total. -/
theorem C1_amended_length (num_bins : Int) (qr : QuantileResponse)
    (l : List Ivl) (h : compute_bins num_bins qr = Except.ok l) :
    l.length = 2 + (bins_within num_bins qr).toNat
      + min (diff_bins num_bins qr).toNat
          ((potential_pools num_bins qr).1.length
            + (potential_pools num_bins qr).2.length) := by
  unfold compute_bins at h
  split_ifs at h
  injection h with h
  subst h
  have hchoose : (extra_bins num_bins qr).1.length
        + (extra_bins num_bins qr).2.length
      = min (diff_bins num_bins qr).toNat
          ((potential_pools num_bins qr).1.length
            + (potential_pools num_bins qr).2.length) := by
    unfold extra_bins choose_extra_bins
    by_cases hp : ((potential_pools num_bins qr).1
        ++ (potential_pools num_bins qr).2).length = 0
    · rw [if_pos hp]
      simp only [List.length_append] at hp
      simp
      omega
    · rw [if_neg hp]
      exact choose_go_length_sum _ _ _ true
  unfold assembled_bins
  have hcore : (core_bins num_bins qr).length
      = (bins_within num_bins qr).toNat := by
    unfold core_bins
    rw [List.length_map]
    exact List.length_range _
  simp only [List.length_append, List.length_cons, List.length_nil]
  omega

/-- C1 amendment witness: the 1..100 scenario instantiates the length
formula. -/
theorem C1_amended_length_witness :
    (assembled_bins 10 qr100).length
      = 2 + (bins_within 10 qr100).toNat
        + min (diff_bins 10 qr100).toNat
            ((potential_pools 10 qr100).1.length
              + (potential_pools 10 qr100).2.length) :=
  C1_amended_length 10 qr100 (assembled_bins 10 qr100) rfl

/-- C2: at the realisable input qr_gap with num_bins = 8, the assembled bins
are not contiguous: the chosen lower extra bin (98, 98) is followed by the
core bin (100, 100), leaving the value 99 uncovered, because choose_extra_bins
takes lower candidates from the far end of the pool. -/
theorem C2_gap_eval :
    ((compute_binned_distribution_case_durations (sample_count sample32) 8
        "DAYS" qr_gap).toOption.map
          (fun rows => contiguousB (rows.map (fun r => r.1)))) = some false
      ∧ (compute_bins 8 qr_gap).toOption
          = some [((0 : Int), (97 : Int)), (98, 98), (100, 100), (101, 101),
                  (102, 102), (103, 103), (104, 104), (105, 1000)] := by
  constructor
  · decide
  · decide

/-- C3: for the all-equal sample (every duration 5, so all four quantiles are
5) and num_bins = 10, the code computes bin_width = 0 and then divides by it;
no floor to 1 is applied and no bins are produced. -/
theorem C3_degenerate_eval :
    compute_binned_distribution_case_durations
        (sample_count (List.replicate 12 5)) 10 "DAYS" ⟨5, 5, 5, 5⟩
      = Except.error BinError.divisionByZero
      ∧ bin_width_raw 10 ⟨5, 5, 5, 5⟩ = 0 := ⟨rfl, rfl⟩

/-- C4: with num_bins = 2 the code divides by num_bins - 2 = 0 on the
bin-width line; it fails with an arithmetic division-by-zero crash, not with
the InvalidConfiguration error the specification prescribes. -/
theorem C4_no_guard_eval :
    compute_binned_distribution_case_durations (sample_count sample100) 2
        "DAYS" ⟨1, 100, 25, 75⟩
      = Except.error BinError.divisionByZero
      ∧ BinError.divisionByZero ≠ BinError.invalidConfiguration :=
  ⟨rfl, by decide⟩

/-- C5: on the 32-value sample realising qr_gap with num_bins = 8, the per-bin
counts sum to 31, not 32: the value 99 falls into the gap the bins leave, even
though the count oracle is accurate (the full range holds all 32 values). -/
theorem C5_count_loss_eval :
    sample32.length = 32
      ∧ sample_count sample32 (0, 1000) = 32
      ∧ ((compute_binned_distribution_case_durations (sample_count sample32) 8
          "DAYS" qr_gap).toOption.map
            (fun rows => (rows.map (fun r => r.2)).sum)) = some 31 := by
  refine ⟨by decide, by decide, by decide⟩

/-- C8: for the sample 1..100 with num_bins = 10 and time unit DAYS (quantile
responses 5 and 95 at percentiles 1/20 and 19/20, minimum 1, maximum 100), the
result has exactly 10 bins, contiguous, covering 1 to 100, with counts summing
to 100. -/
theorem C8_concrete :
    compute_binned_distribution_case_durations (sample_count sample100) 10
        "DAYS" qr100 = Except.ok rows100
      ∧ rows100.length = 10
      ∧ contiguousB (rows100.map (fun r => r.1)) = true
      ∧ (rows100.map (fun r => r.1)).head?.map (fun d => d.1) = some (1 : Int)
      ∧ (rows100.map (fun r => r.1)).getLast?.map (fun d => d.2)
          = some (100 : Int)
      ∧ (rows100.map (fun r => r.2)).sum = 100 :=
  ⟨rfl, by decide, by decide, by decide, by decide, by decide⟩

/-- C6: whenever the computation succeeds with num_bins at least 3, the first
returned bin has low equal to the 0th-percentile value and the last bin has
high equal to the 100th-percentile value, because the assembled list always
starts with (min_val, _) and ends with (_, max_val). -/
theorem C6_endpoints (cnt : Ivl → Nat) (num_bins : Int) (time_unit : String)
    (qr : QuantileResponse) (rows : List (Ivl × Nat))
    (h3 : 3 ≤ num_bins)
    (h : compute_binned_distribution_case_durations cnt num_bins time_unit qr
          = Except.ok rows) :
    rows.head?.map (fun r => r.1.1) = some qr.min_val
      ∧ rows.getLast?.map (fun r => r.1.2) = some qr.max_val := by
  unfold compute_binned_distribution_case_durations at h
  cases hcb : compute_bins num_bins qr with
  | error e =>
    rw [hcb] at h
    exact absurd h (by simp [Except.map])
  | ok l =>
    rw [hcb] at h
    simp only [Except.map] at h
    injection h with h
    subst h
    unfold compute_bins at hcb
    split_ifs at hcb
    injection hcb with hcb
    subst hcb
    unfold get_num_cases_with_durations
    constructor
    · rw [List.head?_map]
      have hh : (assembled_bins num_bins qr).head?
          = some (qr.min_val, min_inner_bin num_bins qr - 1) := rfl
      rw [hh]
      rfl
    · rw [List.getLast?_map]
      have hl : (assembled_bins num_bins qr).getLast?
          = some (max_inner_bin num_bins qr + 1, qr.max_val) := by
        unfold assembled_bins
        rw [List.getLast?_concat]
      rw [hl]
      rfl

/-- C6 witness: the 1..100 scenario; the first bin starts at 1 and the last
bin ends at 100. -/
theorem C6_witness :
    rows100.head?.map (fun r => r.1.1) = some (1 : Int)
      ∧ rows100.getLast?.map (fun r => r.1.2) = some (100 : Int) :=
  C6_endpoints (sample_count sample100) 10 "DAYS" qr100 rows100
    (by decide) rfl

/-- C9: the computation is a pure function of num_bins, the time unit and the
accessor responses; two calls whose count oracles agree on every interval and
whose quantile responses coincide return identical results. -/
theorem C9_deterministic (cnt1 cnt2 : Ivl → Nat) (num_bins : Int)
    (time_unit : String) (qr1 qr2 : QuantileResponse)
    (hcnt : ∀ d, cnt1 d = cnt2 d) (hqr : qr1 = qr2) :
    compute_binned_distribution_case_durations cnt1 num_bins time_unit qr1
      = compute_binned_distribution_case_durations cnt2 num_bins time_unit qr2 := by
  subst hqr
  unfold compute_binned_distribution_case_durations
  cases compute_bins num_bins qr1 with
  | error e => rfl
  | ok l =>
    simp only [Except.map]
    unfold get_num_cases_with_durations
    congr 1
    exact List.map_congr_left fun d _ => by rw [hcnt d]

/-- C9 witness: two syntactically different but extensionally equal count
oracles on the 5..13 scenario give identical results. -/
theorem C9_witness :
    compute_binned_distribution_case_durations (sample_count sample9) 10
        "DAYS" qr9
      = compute_binned_distribution_case_durations
          (fun d => sample_count sample9 d) 10 "DAYS" qr9 :=
  C9_deterministic (sample_count sample9) (fun d => sample_count sample9 d)
    10 "DAYS" qr9 qr9 (fun d => rfl) rfl
